import Mathlib

/-!
# check_uring

A shallow embedding of `src/check_uring/check_uring.c`, the io_uring capability probe:

    int main() {
        struct io_uring ring;
        int ret = io_uring_queue_init(8, &ring, 0);
        if (ret) {
            printf("io_uring init failed: %d\n", ret);
            return 1;
        }
        printf("io_uring OK\n");
        getchar();
    }

The program talks to three things outside itself: the kernel facility behind
`io_uring_queue_init`, standard output and standard input.  They are modelled by explicit
state passing over a `World`; every call of a library function appends one `Event` to the
trace of the world, so that the order of the calls can be stated and proved.  The value
returned by `io_uring_queue_init` is decided by the host, so it is a parameter of `main`.
The local `struct io_uring ring` filled through `&ring` is the `ring` field of the world.
The values returned by `printf` and `getchar` are computed and, as in the source, dropped.
-/

namespace CheckUring

/-! ## Data model -/

/-- The value of `EOF` in `<stdio.h>`. -/
def EOF : Int := -1

/-- Smallest value of a C `int` (32 bits, two's complement). -/
def INT_MIN : Int := -2147483648

/-- Largest value of a C `int`. -/
def INT_MAX : Int := 2147483647

/-- The library calls a run can make, in the vocabulary of `<liburing.h>` and `<stdio.h>`,
and the end of the process.  `queue_exit`, `submit` and `wait_cqe` stand for the release of
a ring and for the submission and completion operations on it. -/
inductive Event where
  | queue_init (entries : Nat) (flags : Nat) (ret : Int)
  | queue_exit
  | submit
  | wait_cqe
  | write (text : String)
  | read (result : Int)
  | exit (status : Nat)
  deriving DecidableEq

/-- The part of the outside world the program can see or change: what is still unread on
the standard input stream, what has been written to standard output, the calls made so far,
and the ring the process holds (its depth), if any.  `stdin` is the stream as `<stdio.h>`
presents it, one character per `getchar`; how many bytes the library takes off the
descriptor at once to fill its buffer is not part of the model. -/
structure World where
  stdin : List (Fin 256)
  stdout : String
  trace : List Event
  ring : Option Nat

/-- What is left of a run once the process has ended. -/
structure Outcome where
  status : Nat
  stdout : String
  trace : List Event
  stdin_left : List (Fin 256)
  ring : Option Nat

/-! ## The library functions the program calls -/

/-- The character of the decimal digit `d`, that is `'0' + d`. -/
def digitChar (d : Nat) : Char := Char.ofNat (48 + d)

/-- The decimal digits of `n` put in front of `acc`, most significant first; `fuel` bounds the
number of digits produced. -/
def fmt_u_aux : Nat → Nat → List Char → List Char
  | 0, _, acc => acc
  | fuel + 1, n, acc =>
    if n < 10 then digitChar n :: acc
    else fmt_u_aux fuel (n / 10) (digitChar (n % 10) :: acc)

/-- The conversion `%u`: `n` in decimal, without leading zeros. -/
def fmt_u (n : Nat) : List Char := fmt_u_aux (n + 1) n []

/-- The conversion `%d`: a minus sign for a negative value, then the magnitude in decimal. -/
def fmt_d (i : Int) : List Char :=
  if i < 0 then '-' :: fmt_u i.natAbs else fmt_u i.natAbs

/-- The scanner of a `printf` format.  The flag says whether the previous character opened a
conversion with `%`.  `%d` prints the next argument, `%%` prints a percent sign, every other
character outside a conversion is copied.  No other conversion is used by the program; such
a conversion, or a `%d` without an argument, prints nothing. -/
def vformat_aux : Bool → List Char → List Int → List Char
  | _, [], _ => []
  | false, c :: rest, args =>
    if c = '%' then vformat_aux true rest args else c :: vformat_aux false rest args
  | true, c :: rest, args =>
    if c = 'd' then
      match args with
      | a :: args2 => fmt_d a ++ vformat_aux false rest args2
      | [] => vformat_aux false rest []
    else if c = '%' then '%' :: vformat_aux false rest args
    else vformat_aux false rest args

/-- The text a `printf` format produces for the given arguments. -/
def vformat (fmt : List Char) (args : List Int) : List Char := vformat_aux false fmt args

/-- The call `io_uring_queue_init(entries, &ring, flags)`.  The outcome `ret` is chosen by the
host: `0` when the ring was created, and then the process holds a ring of that depth; an
error code otherwise, and then nothing was created. -/
def io_uring_queue_init (entries flags : Nat) (ret : Int) (w : World) : Int × World :=
  (ret, ⟨w.stdin, w.stdout, w.trace ++ [Event.queue_init entries flags ret],
    if ret = 0 then some entries else w.ring⟩)

/-- The call `printf(fmt, args...)`: the formatted text goes to standard output, its length is
returned. -/
def printf (fmt : String) (args : List Int) (w : World) : Int × World :=
  let text := String.mk (vformat fmt.data args)
  ((text.length : Int), ⟨w.stdin, w.stdout ++ text, w.trace ++ [Event.write text], w.ring⟩)

/-- The call `getchar()`: the next character of the standard input stream, or `EOF` when
there is none.  The stream moves on by one character; the bytes the library may fetch ahead
of it into its buffer are not modelled. -/
def getchar (w : World) : Int × World :=
  match w.stdin with
  | [] => (EOF, ⟨[], w.stdout, w.trace ++ [Event.read EOF], w.ring⟩)
  | c :: rest =>
    ((c.val : Int), ⟨rest, w.stdout, w.trace ++ [Event.read (c.val : Int)], w.ring⟩)

/-! ## The program -/

/-- The function `main` of `check_uring.c`.  `queue_init_ret` is what the host answers to the
acquisition call.  Reaching the closing brace of `main` returns `0`. -/
def main (queue_init_ret : Int) (w : World) : Int × World :=
  let (ret, w) := io_uring_queue_init 8 0 queue_init_ret w
  if ret ≠ 0 then
    let (_, w) := printf "io_uring init failed: %d\n" [ret] w
    (1, w)
  else
    let (_, w) := printf "io_uring OK\n" [] w
    let (_, w) := getchar w
    (0, w)

/-- The exit status of a process whose `main` returned `rv`: its low eight bits. -/
def exit_status (rv : Int) : Nat := (rv % 256).toNat

/-- A whole run of the process: `main` is started with nothing written, nothing called and
no ring held, and the process ends with the status `main` returned. -/
def run (queue_init_ret : Int) (stdin : List (Fin 256)) : Outcome :=
  let (rv, w) := main queue_init_ret ⟨stdin, "", [], none⟩
  ⟨exit_status rv, w.stdout, w.trace ++ [Event.exit (exit_status rv)], w.stdin, w.ring⟩

/-! ## Observations on a run -/

/-- An acquisition call. -/
def Event.isInit : Event → Bool
  | Event.queue_init _ _ _ => true
  | _ => false

/-- A write to standard output. -/
def Event.isWrite : Event → Bool
  | Event.write _ => true
  | _ => false

/-- A read from standard input. -/
def Event.isRead : Event → Bool
  | Event.read _ => true
  | _ => false

/-- A release of the ring or an operation on it after its creation. -/
def Event.isRingUse : Event → Bool
  | Event.queue_exit => true
  | Event.submit => true
  | Event.wait_cqe => true
  | _ => false

/-- The end of the process. -/
def Event.isExit : Event → Bool
  | Event.exit _ => true
  | _ => false

/-- Number of reads from standard input in a trace. -/
def reads (t : List Event) : Nat := t.countP Event.isRead

/-- Number of writes to standard output in a trace. -/
def writes (t : List Event) : Nat := t.countP Event.isWrite

/-- Number of acquisition calls in a trace. -/
def inits (t : List Event) : Nat := t.countP Event.isInit

/-- The value of a string of decimal digits read after `acc`; `none` when a character is not
a digit. -/
def parse_u_aux : List Char → Nat → Option Nat
  | [], acc => some acc
  | c :: cs, acc =>
    if 48 ≤ c.toNat ∧ c.toNat ≤ 57 then parse_u_aux cs (10 * acc + (c.toNat - 48)) else none

/-- The value of a non-empty string of decimal digits. -/
def parse_u : List Char → Option Nat
  | [] => none
  | c :: cs => parse_u_aux (c :: cs) 0

/-- The value of a signed decimal numeral: an optional minus sign, then digits. -/
def parse_d : List Char → Option Int
  | [] => none
  | c :: cs =>
    if c = '-' then
      match parse_u cs with
      | some n => some (-(n : Int))
      | none => none
    else
      match parse_u (c :: cs) with
      | some n => some (n : Int)
      | none => none

/-- The text `needle` occurs in `s`. -/
def occursIn (needle s : String) : Prop :=
  ∃ pre post : List Char, s.data = pre ++ needle.data ++ post

/-- The result of the next `getchar()` on the given input. -/
def next_char (stdin : List (Fin 256)) : Int :=
  match stdin with
  | [] => EOF
  | c :: _ => (c.val : Int)

/-- The line the failure branch prints for the code `ret`. -/
def failure_line (ret : Int) : String :=
  "io_uring init failed: " ++ String.mk (fmt_d ret) ++ "\n"

/-! ## Auxiliary lemmas: formatting -/

theorem vformat_ok : vformat "io_uring OK\n".data [] = "io_uring OK\n".data := by
  decide

theorem vformat_failed (ret : Int) :
    vformat "io_uring init failed: %d\n".data [ret]
      = "io_uring init failed: ".data ++ (fmt_d ret ++ "\n".data) := by
  rfl

theorem text_failed (ret : Int) :
    String.mk (vformat "io_uring init failed: %d\n".data [ret]) = failure_line ret := by
  rw [vformat_failed]
  rfl

theorem text_ok : String.mk (vformat "io_uring OK\n".data []) = "io_uring OK\n" := by
  decide

/-- The run on the success branch, in full. -/
theorem run_zero (stdin : List (Fin 256)) :
    run 0 stdin =
      ⟨0, "io_uring OK\n",
        [Event.queue_init 8 0 0, Event.write "io_uring OK\n", Event.read (next_char stdin),
          Event.exit 0],
        stdin.tail, some 8⟩ := by
  cases stdin <;> rfl

/-- The run on the failure branch, in full. -/
theorem run_nonzero (ret : Int) (stdin : List (Fin 256)) (h : ret ≠ 0) :
    run ret stdin =
      ⟨1, failure_line ret,
        [Event.queue_init 8 0 ret, Event.write (failure_line ret), Event.exit 1],
        stdin, none⟩ := by
  simp only [run, main, io_uring_queue_init, printf, text_failed, h, ne_eq, not_false_eq_true,
    if_true, if_false]
  simp [exit_status]
  rfl

/-! ## Auxiliary lemmas: decimal numerals -/

theorem digitChar_toNat (d : Nat) (h : d < 10) : (digitChar d).toNat = 48 + d := by
  interval_cases d <;> rfl

theorem fmt_u_aux_acc (fuel : Nat) :
    ∀ (n : Nat) (acc : List Char), fmt_u_aux fuel n acc = fmt_u_aux fuel n [] ++ acc := by
  induction fuel with
  | zero => intro n acc; simp [fmt_u_aux]
  | succ fuel ih =>
    intro n acc
    by_cases h : n < 10
    · simp [fmt_u_aux, h]
    · simp only [fmt_u_aux, h, if_false]
      rw [ih (n / 10) (digitChar (n % 10) :: acc), ih (n / 10) [digitChar (n % 10)]]
      simp

theorem parse_u_aux_append (xs ys : List Char) :
    ∀ acc : Nat,
      parse_u_aux (xs ++ ys) acc = (parse_u_aux xs acc).bind (fun a => parse_u_aux ys a) := by
  induction xs with
  | nil => intro acc; simp [parse_u_aux]
  | cons c cs ih =>
    intro acc
    by_cases h : 48 ≤ c.toNat ∧ c.toNat ≤ 57
    · simp only [List.cons_append, parse_u_aux, h, and_self, if_true]
      exact ih _
    · simp [parse_u_aux, h]

theorem parse_u_aux_digit (d acc : Nat) (h : d < 10) :
    parse_u_aux [digitChar d] acc = some (10 * acc + d) := by
  have hd := digitChar_toNat d h
  simp only [parse_u_aux, hd]
  have : 48 ≤ 48 + d ∧ 48 + d ≤ 57 := by omega
  simp [this]

/-- Reading back the digits written for `n` gives `n`, whenever the fuel is at least `n`. -/
theorem parse_u_aux_fmt_u_aux (fuel : Nat) :
    ∀ n : Nat, n ≤ fuel → parse_u_aux (fmt_u_aux (fuel + 1) n []) 0 = some n := by
  induction fuel with
  | zero =>
    intro n hn
    have : n = 0 := by omega
    subst this
    decide
  | succ fuel ih =>
    intro n hn
    by_cases h : n < 10
    · have := parse_u_aux_digit n 0 h
      simp only [fmt_u_aux, h, if_true]
      simpa using this
    · have h10 : n / 10 ≤ fuel := by omega
      have hrec : fmt_u_aux (fuel + 1 + 1) n []
          = fmt_u_aux (fuel + 1) (n / 10) [] ++ [digitChar (n % 10)] := by
        rw [← fmt_u_aux_acc (fuel + 1) (n / 10) [digitChar (n % 10)]]
        simp only [fmt_u_aux, h, if_false]
      rw [hrec, parse_u_aux_append, ih (n / 10) h10]
      simp only [Option.some_bind]
      rw [parse_u_aux_digit _ _ (Nat.mod_lt n (by decide))]
      congr 1
      omega

theorem parse_u_aux_fmt_u (n : Nat) : parse_u_aux (fmt_u n) 0 = some n :=
  parse_u_aux_fmt_u_aux n n (Nat.le_refl n)

/-- A string that reads as a number consists of digits only. -/
theorem digits_of_parse_u_aux (cs : List Char) :
    ∀ (acc v : Nat), parse_u_aux cs acc = some v →
      ∀ c ∈ cs, 48 ≤ c.toNat ∧ c.toNat ≤ 57 := by
  induction cs with
  | nil => intro acc v _ c hc; simp at hc
  | cons d ds ih =>
    intro acc v hv c hc
    by_cases h : 48 ≤ d.toNat ∧ d.toNat ≤ 57
    · simp only [parse_u_aux, h, and_self, if_true] at hv
      rcases List.mem_cons.mp hc with rfl | hc
      · exact h
      · exact ih _ v hv c hc
    · simp [parse_u_aux, h] at hv

theorem fmt_u_digits (n : Nat) : ∀ c ∈ fmt_u n, 48 ≤ c.toNat ∧ c.toNat ≤ 57 :=
  digits_of_parse_u_aux (fmt_u n) 0 n (parse_u_aux_fmt_u n)

theorem fmt_u_ne_nil (n : Nat) : fmt_u n ≠ [] := by
  unfold fmt_u
  by_cases h : n < 10
  · simp [fmt_u_aux, h]
  · simp only [fmt_u_aux, h, if_false]
    rw [fmt_u_aux_acc]
    simp

theorem parse_u_fmt_u (n : Nat) : parse_u (fmt_u n) = some n := by
  have h := parse_u_aux_fmt_u n
  have hne := fmt_u_ne_nil n
  cases hcs : fmt_u n with
  | nil => exact absurd hcs hne
  | cons c cs => rw [hcs] at h; simpa [parse_u] using h

/-- Reading back the text written by `%d` gives the value that was printed. -/
theorem parse_d_fmt_d (i : Int) : parse_d (fmt_d i) = some i := by
  by_cases hneg : i < 0
  · have hi : -((i.natAbs : Nat) : Int) = i := by omega
    simp only [fmt_d, hneg, if_true, parse_d, parse_u_fmt_u, hi]
  · have hi : ((i.natAbs : Nat) : Int) = i := by omega
    have hdig := fmt_u_digits i.natAbs
    have hp := parse_u_fmt_u i.natAbs
    simp only [fmt_d, hneg, if_false]
    cases hcs : fmt_u i.natAbs with
    | nil => exact absurd hcs (fmt_u_ne_nil _)
    | cons c cs =>
      rw [hcs] at hdig hp
      have hc : c ≠ '-' := by
        intro hc
        have := hdig c (List.mem_cons_self _ _)
        rw [hc] at this
        revert this
        decide
      simp only [parse_d, hc, if_false, hp, hi]

/-- The text written by `%d` has no newline in it. -/
theorem fmt_d_no_newline (i : Int) : '\n' ∉ fmt_d i := by
  have hdig := fmt_u_digits i.natAbs
  have hnl : '\n' ∉ fmt_u i.natAbs := by
    intro hmem
    have := hdig _ hmem
    revert this
    decide
  by_cases hneg : i < 0
  · simp only [fmt_d, hneg, if_true, List.mem_cons, not_or]
    exact ⟨by decide, hnl⟩
  · simpa [fmt_d, hneg] using hnl

theorem failure_line_data (ret : Int) :
    (failure_line ret).data = "io_uring init failed: ".data ++ (fmt_d ret ++ ['\n']) := by
  rfl

theorem failure_line_newlines (ret : Int) : (failure_line ret).data.count '\n' = 1 := by
  rw [failure_line_data, List.count_append, List.count_append,
    List.count_eq_zero_of_not_mem (fmt_d_no_newline ret)]
  decide

theorem failure_line_last (ret : Int) : (failure_line ret).data.getLast? = some '\n' := by
  rw [failure_line_data, ← List.append_assoc, List.getLast?_append]
  rfl

/-- Cutting the fixed text and the newline off the failure line and reading the rest as a
signed decimal numeral gives back the code. -/
theorem failure_line_field (ret : Int) :
    parse_d (((failure_line ret).data.drop 22).dropLast) = some ret := by
  have hfield : ((failure_line ret).data.drop 22).dropLast = fmt_d ret := by
    rw [failure_line_data]
    have h22 : "io_uring init failed: ".data.length = 22 := by decide
    rw [← h22, List.drop_left]
    simp
  rw [hfield]
  exact parse_d_fmt_d ret

/-! ## The claims -/

/-- C1: for every return code `ret` of `io_uring_queue_init` and every content of standard
input, the exit status of the process is 0 if and only if `ret = 0`, and it is 1 for every
other `ret`, positive or negative.  The success run ends by reading standard input and then
leaving `main` through its closing brace, with status 0. -/
theorem C1_exit_status (ret : Int) (stdin : List (Fin 256)) :
    ((run ret stdin).status = 0 ↔ ret = 0) ∧
    (run ret stdin).status = (if ret = 0 then 0 else 1) ∧
    (run 0 stdin).status = 0 ∧
    (run 0 stdin).trace =
      [Event.queue_init 8 0 0, Event.write "io_uring OK\n", Event.read (next_char stdin),
        Event.exit 0] := by
  refine ⟨?_, ?_, ?_, ?_⟩
  · by_cases h : ret = 0
    · subst h; rw [run_zero]; simp
    · rw [run_nonzero ret stdin h]; simp [h]
  · by_cases h : ret = 0
    · subst h; rw [run_zero]; simp
    · rw [run_nonzero ret stdin h]; simp [h]
  · rw [run_zero]
  · rw [run_zero]

/-- C2: for every return code `ret`, everything the run writes to standard output is one
line ended by a newline: `io_uring OK` when `ret = 0`, and `io_uring init failed: ` followed
by the code when `ret` is not 0.  The text has exactly one newline, which is its last
character, and the run makes exactly one write.  The code in the failure line is `ret`:
what stands between the fixed text and the newline reads back as `ret`, and the lines for
-38, 12 and 0 are the literal ones. -/
theorem C2_stdout_one_line (ret : Int) (stdin : List (Fin 256)) :
    (run ret stdin).stdout =
      (if ret = 0 then "io_uring OK\n"
       else "io_uring init failed: " ++ String.mk (fmt_d ret) ++ "\n") ∧
    (run ret stdin).stdout.data.count '\n' = 1 ∧
    (run ret stdin).stdout.data.getLast? = some '\n' ∧
    writes (run ret stdin).trace = 1 ∧
    (ret ≠ 0 → parse_d (((run ret stdin).stdout.data.drop 22).dropLast) = some ret) ∧
    (run (-38) stdin).stdout = "io_uring init failed: -38\n" ∧
    (run 12 stdin).stdout = "io_uring init failed: 12\n" ∧
    (run 0 stdin).stdout = "io_uring OK\n" := by
  have h38 : (run (-38) stdin).stdout = "io_uring init failed: -38\n" := by
    rw [run_nonzero (-38) stdin (by decide)]; rfl
  have h12 : (run 12 stdin).stdout = "io_uring init failed: 12\n" := by
    rw [run_nonzero 12 stdin (by decide)]; rfl
  have h0 : (run 0 stdin).stdout = "io_uring OK\n" := by
    rw [run_zero]
  refine ⟨?_, ?_, ?_, ?_, ?_, h38, h12, h0⟩
  · by_cases h : ret = 0
    · subst h; rw [run_zero]; rfl
    · rw [run_nonzero ret stdin h]; simp [h, failure_line]
  · by_cases h : ret = 0
    · subst h; rw [run_zero]; rfl
    · rw [run_nonzero ret stdin h]; exact failure_line_newlines ret
  · by_cases h : ret = 0
    · subst h; rw [run_zero]; rfl
    · rw [run_nonzero ret stdin h]; exact failure_line_last ret
  · by_cases h : ret = 0
    · subst h; rw [run_zero]; rfl
    · rw [run_nonzero ret stdin h]; rfl
  · intro h
    rw [run_nonzero ret stdin h]
    exact failure_line_field ret

/-- Witness of C2 at the non-zero return code -38 with empty standard input: the printed
field reads back as -38. -/
theorem C2_stdout_one_line_witness :
    (-38 : Int) ≠ 0 ∧
    (run (-38) []).stdout = "io_uring init failed: -38\n" ∧
    parse_d (((run (-38) []).stdout.data.drop 22).dropLast) = some (-38) :=
  ⟨by decide, (C2_stdout_one_line (-38) []).2.2.2.2.2.1,
    (C2_stdout_one_line (-38) []).2.2.2.2.1 (by decide)⟩

/-- C3: for every non-zero return code `ret` (every integer, so every 32-bit `int`, the two
ends of the range included), the failure line is the fixed text, then the signed decimal
rendering of `ret` itself, then a newline, and reading the printed numeral back gives `ret`.
For `ret = -38` the output is `io_uring init failed: -38`, which contains `-38`, and the exit
status is 1. -/
theorem C3_printed_code (ret : Int) (stdin : List (Fin 256)) (h : ret ≠ 0) :
    (run ret stdin).stdout = "io_uring init failed: " ++ String.mk (fmt_d ret) ++ "\n" ∧
    parse_d (fmt_d ret) = some ret ∧
    parse_d (((run ret stdin).stdout.data.drop 22).dropLast) = some ret ∧
    (run ret stdin).status = 1 ∧
    (run INT_MIN stdin).stdout = "io_uring init failed: -2147483648\n" ∧
    (run INT_MAX stdin).stdout = "io_uring init failed: 2147483647\n" ∧
    (run (-38) stdin).stdout = "io_uring init failed: -38\n" ∧
    occursIn "-38" (run (-38) stdin).stdout ∧
    (run (-38) stdin).status = 1 := by
  have hfield : ((failure_line ret).data.drop 22).dropLast = fmt_d ret := by
    rw [failure_line_data]
    have h22 : "io_uring init failed: ".data.length = 22 := by decide
    rw [← h22, List.drop_left]
    simp
  rw [run_nonzero ret stdin h, run_nonzero (-38) stdin (by decide),
    run_nonzero INT_MIN stdin (by decide), run_nonzero INT_MAX stdin (by decide)]
  refine ⟨rfl, parse_d_fmt_d ret, ?_, rfl, ?_, ?_, rfl, ?_, rfl⟩
  · show parse_d (((failure_line ret).data.drop 22).dropLast) = some ret
    rw [hfield]
    exact parse_d_fmt_d ret
  · show failure_line INT_MIN = "io_uring init failed: -2147483648\n"
    decide
  · show failure_line INT_MAX = "io_uring init failed: 2147483647\n"
    decide
  · exact ⟨"io_uring init failed: ".data, ['\n'], rfl⟩

/-- Witness of C3 at the return code -38 with empty standard input. -/
theorem C3_printed_code_witness :
    (run (-38) []).stdout = "io_uring init failed: " ++ String.mk (fmt_d (-38)) ++ "\n" ∧
    parse_d (fmt_d (-38)) = some (-38) ∧
    parse_d (((run (-38) []).stdout.data.drop 22).dropLast) = some (-38) ∧
    (run (-38) []).status = 1 ∧
    (run INT_MIN []).stdout = "io_uring init failed: -2147483648\n" ∧
    (run INT_MAX []).stdout = "io_uring init failed: 2147483647\n" ∧
    (run (-38) []).stdout = "io_uring init failed: -38\n" ∧
    occursIn "-38" (run (-38) []).stdout ∧
    (run (-38) []).status = 1 :=
  C3_printed_code (-38) [] (by decide)

/-- C4, as stated, fails: when the acquisition returns -38 and a newline is waiting on
standard input, the run ends with status 1 without any read from standard input, and the
input is left unread. -/
theorem C4_no_read_on_failure :
    ¬ (1 ≤ reads (run (-38) [10]).trace) ∧
    (run (-38) [10]).trace =
      [Event.queue_init 8 0 (-38), Event.write "io_uring init failed: -38\n", Event.exit 1] ∧
    (run (-38) [10]).stdin_left = [10] ∧
    (run (-38) [10]).status = 1 := by
  rw [run_nonzero (-38) [10] (by decide)]
  exact ⟨by decide, rfl, rfl, rfl⟩

/-- C4, amended: when the acquisition returns 0 the run performs exactly one read from
standard input (`getchar`, giving the next character or `EOF`), after the success line and
before the exit with status 0; when the acquisition returns anything else the run prints the
failure line with the code, ends with status 1, and makes no read from standard input, which
is left untouched. -/
theorem C4_read_only_on_success (ret : Int) (stdin : List (Fin 256)) :
    reads (run ret stdin).trace = (if ret = 0 then 1 else 0) ∧
    (ret = 0 →
      (run ret stdin).trace =
        [Event.queue_init 8 0 0, Event.write "io_uring OK\n", Event.read (next_char stdin),
          Event.exit 0] ∧
      (run ret stdin).stdout = "io_uring OK\n" ∧
      (run ret stdin).status = 0) ∧
    (ret ≠ 0 →
      (run ret stdin).trace =
        [Event.queue_init 8 0 ret, Event.write (failure_line ret), Event.exit 1] ∧
      (run ret stdin).stdout = "io_uring init failed: " ++ String.mk (fmt_d ret) ++ "\n" ∧
      parse_d (((run ret stdin).stdout.data.drop 22).dropLast) = some ret ∧
      (run ret stdin).status = 1 ∧
      (run ret stdin).stdin_left = stdin) ∧
    (run 0 []).trace =
      [Event.queue_init 8 0 0, Event.write "io_uring OK\n", Event.read EOF, Event.exit 0] ∧
    (run (-38) stdin).stdout = "io_uring init failed: -38\n" := by
  refine ⟨?_, ?_, ?_, ?_, ?_⟩
  · by_cases h : ret = 0
    · subst h; rw [run_zero]; rfl
    · rw [run_nonzero ret stdin h]; simp [h, reads, Event.isRead]
  · intro h
    subst h
    rw [run_zero]
    exact ⟨rfl, rfl, rfl⟩
  · intro h
    rw [run_nonzero ret stdin h]
    exact ⟨rfl, rfl, failure_line_field ret, rfl, rfl⟩
  · rw [run_zero]; rfl
  · rw [run_nonzero (-38) stdin (by decide)]; rfl

/-- Witness of the amended C4 on both branches, a newline waiting on standard input: with
return code 0 the newline is read before the exit with status 0; with return code -38 the
failure line is printed, the status is 1 and nothing is read. -/
theorem C4_read_only_on_success_witness :
    ((0 : Int) = 0 ∧
      (run 0 [10]).trace =
        [Event.queue_init 8 0 0, Event.write "io_uring OK\n", Event.read (next_char [10]),
          Event.exit 0] ∧
      (run 0 [10]).stdout = "io_uring OK\n" ∧
      (run 0 [10]).status = 0) ∧
    ((-38 : Int) ≠ 0 ∧
      (run (-38) [10]).trace =
        [Event.queue_init 8 0 (-38), Event.write (failure_line (-38)), Event.exit 1] ∧
      (run (-38) [10]).stdout
        = "io_uring init failed: " ++ String.mk (fmt_d (-38)) ++ "\n" ∧
      parse_d (((run (-38) [10]).stdout.data.drop 22).dropLast) = some (-38) ∧
      (run (-38) [10]).status = 1 ∧
      (run (-38) [10]).stdin_left = [10]) :=
  ⟨⟨rfl, (C4_read_only_on_success 0 [10]).2.1 rfl⟩,
    ⟨by decide, (C4_read_only_on_success (-38) [10]).2.2.1 (by decide)⟩⟩

/-- C5: in every run the call of `io_uring_queue_init` is the first event of the trace and
the only acquisition in it, so every write to standard output and every read from standard
input comes after it; when the call returns, nothing has been written and nothing has been
read. -/
theorem C5_acquisition_first (ret : Int) (stdin : List (Fin 256)) :
    (∃ rest : List Event,
      (run ret stdin).trace = Event.queue_init 8 0 ret :: rest ∧ inits rest = 0) ∧
    (run ret stdin).trace.head? = some (Event.queue_init 8 0 ret) ∧
    (io_uring_queue_init 8 0 ret ⟨stdin, "", [], none⟩).2.stdout = "" ∧
    (io_uring_queue_init 8 0 ret ⟨stdin, "", [], none⟩).2.stdin = stdin ∧
    (io_uring_queue_init 8 0 ret ⟨stdin, "", [], none⟩).2.trace
      = [Event.queue_init 8 0 ret] := by
  by_cases h : ret = 0
  · subst h
    rw [run_zero]
    exact ⟨⟨_, rfl, rfl⟩, rfl, rfl, rfl, rfl⟩
  · rw [run_nonzero ret stdin h]
    exact ⟨⟨_, rfl, rfl⟩, rfl, rfl, rfl, rfl⟩

/-- C6: in every run `io_uring_queue_init` is called exactly once, with depth 8 and flags 0,
whatever it returns; after a non-zero return code there is no second acquisition: the run
is the acquisition, the failure line, and the exit with status 1. -/
theorem C6_single_acquisition (ret : Int) (stdin : List (Fin 256)) :
    (run ret stdin).trace.filter Event.isInit = [Event.queue_init 8 0 ret] ∧
    inits (run ret stdin).trace = 1 ∧
    (ret ≠ 0 →
      (run ret stdin).trace =
        [Event.queue_init 8 0 ret, Event.write (failure_line ret), Event.exit 1] ∧
      (run ret stdin).stdout = failure_line ret ∧
      (run ret stdin).status = 1) := by
  by_cases h : ret = 0
  · subst h
    rw [run_zero]
    exact ⟨rfl, rfl, fun h0 => absurd rfl h0⟩
  · rw [run_nonzero ret stdin h]
    exact ⟨rfl, rfl, fun _ => ⟨rfl, rfl, rfl⟩⟩

/-- Witness of C6 at the non-zero return code -38, a newline waiting on standard input. -/
theorem C6_single_acquisition_witness :
    (-38 : Int) ≠ 0 ∧
    (run (-38) [10]).trace.filter Event.isInit = [Event.queue_init 8 0 (-38)] ∧
    ((run (-38) [10]).trace =
        [Event.queue_init 8 0 (-38), Event.write (failure_line (-38)), Event.exit 1] ∧
      (run (-38) [10]).stdout = failure_line (-38) ∧
      (run (-38) [10]).status = 1) :=
  ⟨by decide, (C6_single_acquisition (-38) [10]).1,
    (C6_single_acquisition (-38) [10]).2.2 (by decide)⟩

/-- C7: the content of standard input has no influence on the result: for every return code
and any two contents of standard input, the empty one included, the two runs have the same
exit status and the same standard output; and every run makes at most one read from
standard input. -/
theorem C7_stdin_not_observed (ret : Int) (stdin1 stdin2 : List (Fin 256)) :
    (run ret stdin1).status = (run ret stdin2).status ∧
    (run ret stdin1).stdout = (run ret stdin2).stdout ∧
    (run ret stdin1).status = (run ret []).status ∧
    (run ret stdin1).stdout = (run ret []).stdout ∧
    reads (run ret stdin1).trace ≤ 1 := by
  by_cases h : ret = 0
  · subst h
    rw [run_zero stdin1, run_zero stdin2, run_zero []]
    exact ⟨rfl, rfl, rfl, rfl, Nat.le_refl 1⟩
  · rw [run_nonzero ret stdin1 h, run_nonzero ret stdin2 h, run_nonzero ret [] h]
    exact ⟨rfl, rfl, rfl, rfl, Nat.zero_le 1⟩

/-- C8: in no run, on either branch, is the ring released or operated on after its creation:
the trace has no `io_uring_queue_exit` and no submission or completion operation; every
event is the acquisition, a write, a read or the exit; and on the success branch the ring of
depth 8 is still held when the process ends. -/
theorem C8_ring_never_released (ret : Int) (stdin : List (Fin 256)) :
    (run ret stdin).trace.filter Event.isRingUse = [] ∧
    Event.queue_exit ∉ (run ret stdin).trace ∧
    Event.submit ∉ (run ret stdin).trace ∧
    Event.wait_cqe ∉ (run ret stdin).trace ∧
    (run ret stdin).trace.all
      (fun e => e.isInit || e.isWrite || e.isRead || e.isExit) = true ∧
    (run ret stdin).ring = (if ret = 0 then some 8 else none) := by
  by_cases h : ret = 0
  · subst h
    rw [run_zero]
    refine ⟨rfl, ?_, ?_, ?_, rfl, rfl⟩ <;> simp
  · rw [run_nonzero ret stdin h]
    refine ⟨rfl, ?_, ?_, ?_, rfl, ?_⟩ <;> simp [h]

end CheckUring





